import Mathlib

/-!
Verification development for the input-event normalization and
command-dispatch layer of the `lexical` editor core
(`LexicalEvents.js`).  The JavaScript source is shallowly embedded:
event handlers become pure Lean functions from event/selection data to
ordered lists of observable effects (dispatched commands,
`preventDefault` calls, composition-key updates), and the stateful
parts (the active-nested-editor map, listener registration) become
explicit state-passing functions.

Helper functions living outside the analyzed module (keyboard
predicates such as `isMoveForward`, `getEditorsToPropagate`,
`Selection.is`) are either universally quantified over or modelled from
the specification; each such definition says so in its doc comment.
-/

/-! ## Keyboard translation (`onKeyDown`) -/

/-- The modifier/key-code tuple destructured from a keyboard event:
`const {keyCode, shiftKey, ctrlKey, metaKey, altKey} = event`. -/
structure KeyInput where
  keyCode : Nat
  ctrlKey : Bool
  shiftKey : Bool
  altKey : Bool
  metaKey : Bool
deriving DecidableEq

/-- A raw keyboard event: the tuple fields plus the `key` string (read
only by the Android soft-key heuristic, never by translation). -/
structure KeyboardEvt where
  keyCode : Nat
  key : String
  ctrlKey : Bool
  shiftKey : Bool
  altKey : Bool
  metaKey : Bool
deriving DecidableEq

/-- Extraction of the translation-relevant tuple from a raw event. -/
def toKeyInput (e : KeyboardEvt) : KeyInput :=
  ⟨e.keyCode, e.ctrlKey, e.shiftKey, e.altKey, e.metaKey⟩

/-- Commands dispatchable by `onKeyDown`.  Payloads that are the raw
event in the source are omitted (they carry no translation content);
boolean and string payloads are kept. -/
inductive KeyCmd
  | keyArrowRight
  | keyArrowLeft
  | keyArrowUp
  | keyArrowDown
  | keyEnter
  | insertLineBreak (selectStart : Bool)
  | keyBackspace
  | deleteCharacter (backward : Bool)
  | keyEscape
  | keyDelete
  | deleteWord (backward : Bool)
  | deleteLine (backward : Bool)
  | formatText (kind : String)
  | keyTab
  | undo
  | redo
deriving DecidableEq

/-- The outcome of a matched keyboard translation: whether
`preventDefault` was called on the raw event, and the command. -/
structure KeyDispatch where
  preventDefault : Bool
  command : KeyCmd
deriving DecidableEq

/-- The keyboard predicates imported from `LexicalUtils` (outside the
analyzed module).  They are kept abstract: every theorem about
`onKeyDown` holds for all predicate implementations.  Argument orders
follow the call sites in `onKeyDown`. -/
structure KeyPredicates where
  isMoveForward : Nat → Bool → Bool → Bool → Bool → Bool
  isMoveBackward : Nat → Bool → Bool → Bool → Bool → Bool
  isMoveUp : Nat → Bool → Bool → Bool → Bool → Bool
  isMoveDown : Nat → Bool → Bool → Bool → Bool → Bool
  isLineBreak : Nat → Bool → Bool
  isOpenLineBreak : Nat → Bool → Bool
  isParagraph : Nat → Bool → Bool
  isDeleteBackward : Nat → Bool → Bool → Bool → Bool
  isBackspace : Nat → Bool
  isEscape : Nat → Bool
  isDeleteForward : Nat → Bool → Bool → Bool → Bool → Bool
  isDelete : Nat → Bool
  isDeleteWordBackward : Nat → Bool → Bool → Bool
  isDeleteWordForward : Nat → Bool → Bool → Bool
  isDeleteLineBackward : Nat → Bool → Bool
  isDeleteLineForward : Nat → Bool → Bool
  isBold : Nat → Bool → Bool → Bool
  isUnderline : Nat → Bool → Bool → Bool
  isItalic : Nat → Bool → Bool → Bool
  isTab : Nat → Bool → Bool → Bool → Bool
  isUndo : Nat → Bool → Bool → Bool → Bool
  isRedo : Nat → Bool → Bool → Bool → Bool

/-- `updateAndroidSoftKeyFlagIfAny`: the new value of the process-wide
soft-key flag, computed on every key-down. -/
def updateAndroidSoftKeyFlagIfAny (e : KeyboardEvt) : Bool :=
  (e.key == "Unidentified") && (e.keyCode == 229)

/-- The translation chain of `onKeyDown`, transcribed branch by branch
from the source (the `if`/`else if` cascade after the composing
gate). -/
def onKeyDownDispatch (P : KeyPredicates) (t : KeyInput) : Option KeyDispatch :=
  if P.isMoveForward t.keyCode t.ctrlKey t.shiftKey t.altKey t.metaKey then
    some ⟨false, .keyArrowRight⟩
  else if P.isMoveBackward t.keyCode t.ctrlKey t.shiftKey t.altKey t.metaKey then
    some ⟨false, .keyArrowLeft⟩
  else if P.isMoveUp t.keyCode t.ctrlKey t.shiftKey t.altKey t.metaKey then
    some ⟨false, .keyArrowUp⟩
  else if P.isMoveDown t.keyCode t.ctrlKey t.shiftKey t.altKey t.metaKey then
    some ⟨false, .keyArrowDown⟩
  else if P.isLineBreak t.keyCode t.shiftKey then
    some ⟨false, .keyEnter⟩
  else if P.isOpenLineBreak t.keyCode t.ctrlKey then
    some ⟨true, .insertLineBreak true⟩
  else if P.isParagraph t.keyCode t.shiftKey then
    some ⟨false, .keyEnter⟩
  else if P.isDeleteBackward t.keyCode t.altKey t.metaKey t.ctrlKey then
    if P.isBackspace t.keyCode then some ⟨false, .keyBackspace⟩
    else some ⟨false, .deleteCharacter true⟩
  else if P.isEscape t.keyCode then
    some ⟨false, .keyEscape⟩
  else if P.isDeleteForward t.keyCode t.ctrlKey t.shiftKey t.altKey t.metaKey then
    if P.isDelete t.keyCode then some ⟨false, .keyDelete⟩
    else some ⟨true, .deleteCharacter false⟩
  else if P.isDeleteWordBackward t.keyCode t.altKey t.ctrlKey then
    some ⟨true, .deleteWord true⟩
  else if P.isDeleteWordForward t.keyCode t.altKey t.ctrlKey then
    some ⟨true, .deleteWord false⟩
  else if P.isDeleteLineBackward t.keyCode t.metaKey then
    some ⟨true, .deleteLine true⟩
  else if P.isDeleteLineForward t.keyCode t.metaKey then
    some ⟨true, .deleteLine false⟩
  else if P.isBold t.keyCode t.metaKey t.ctrlKey then
    some ⟨true, .formatText "bold"⟩
  else if P.isUnderline t.keyCode t.metaKey t.ctrlKey then
    some ⟨true, .formatText "underline"⟩
  else if P.isItalic t.keyCode t.metaKey t.ctrlKey then
    some ⟨true, .formatText "italic"⟩
  else if P.isTab t.keyCode t.altKey t.ctrlKey t.metaKey then
    some ⟨false, .keyTab⟩
  else if P.isUndo t.keyCode t.shiftKey t.metaKey t.ctrlKey then
    some ⟨true, .undo⟩
  else if P.isRedo t.keyCode t.shiftKey t.metaKey t.ctrlKey then
    some ⟨true, .redo⟩
  else
    none

/-- `onKeyDown`: updates the soft-key flag unconditionally, dispatches
nothing while composing, otherwise runs the translation chain on the
destructured tuple.  Result: (dispatch, new soft-key flag). -/
def onKeyDown (P : KeyPredicates) (isComposing : Bool) (e : KeyboardEvt) :
    Option KeyDispatch × Bool :=
  let flag := updateAndroidSoftKeyFlagIfAny e
  if isComposing then (none, flag)
  else (onKeyDownDispatch P (toKeyInput e), flag)

/-- First-match-wins evaluation of an ordered (predicate, command)
table, the specification's description of the keyboard table. -/
def firstMatch (table : List ((KeyInput → Bool) × (KeyInput → KeyDispatch)))
    (t : KeyInput) : Option KeyDispatch :=
  match table with
  | [] => none
  | (p, c) :: rest => if p t then some (c t) else firstMatch rest t

/-- The fixed top-to-bottom keyboard table, one entry per branch of the
source chain, in source order. -/
def keyDownTable (P : KeyPredicates) :
    List ((KeyInput → Bool) × (KeyInput → KeyDispatch)) :=
  [ (fun t => P.isMoveForward t.keyCode t.ctrlKey t.shiftKey t.altKey t.metaKey,
     fun _ => ⟨false, .keyArrowRight⟩),
    (fun t => P.isMoveBackward t.keyCode t.ctrlKey t.shiftKey t.altKey t.metaKey,
     fun _ => ⟨false, .keyArrowLeft⟩),
    (fun t => P.isMoveUp t.keyCode t.ctrlKey t.shiftKey t.altKey t.metaKey,
     fun _ => ⟨false, .keyArrowUp⟩),
    (fun t => P.isMoveDown t.keyCode t.ctrlKey t.shiftKey t.altKey t.metaKey,
     fun _ => ⟨false, .keyArrowDown⟩),
    (fun t => P.isLineBreak t.keyCode t.shiftKey,
     fun _ => ⟨false, .keyEnter⟩),
    (fun t => P.isOpenLineBreak t.keyCode t.ctrlKey,
     fun _ => ⟨true, .insertLineBreak true⟩),
    (fun t => P.isParagraph t.keyCode t.shiftKey,
     fun _ => ⟨false, .keyEnter⟩),
    (fun t => P.isDeleteBackward t.keyCode t.altKey t.metaKey t.ctrlKey,
     fun t => if P.isBackspace t.keyCode then ⟨false, .keyBackspace⟩
              else ⟨false, .deleteCharacter true⟩),
    (fun t => P.isEscape t.keyCode,
     fun _ => ⟨false, .keyEscape⟩),
    (fun t => P.isDeleteForward t.keyCode t.ctrlKey t.shiftKey t.altKey t.metaKey,
     fun t => if P.isDelete t.keyCode then ⟨false, .keyDelete⟩
              else ⟨true, .deleteCharacter false⟩),
    (fun t => P.isDeleteWordBackward t.keyCode t.altKey t.ctrlKey,
     fun _ => ⟨true, .deleteWord true⟩),
    (fun t => P.isDeleteWordForward t.keyCode t.altKey t.ctrlKey,
     fun _ => ⟨true, .deleteWord false⟩),
    (fun t => P.isDeleteLineBackward t.keyCode t.metaKey,
     fun _ => ⟨true, .deleteLine true⟩),
    (fun t => P.isDeleteLineForward t.keyCode t.metaKey,
     fun _ => ⟨true, .deleteLine false⟩),
    (fun t => P.isBold t.keyCode t.metaKey t.ctrlKey,
     fun _ => ⟨true, .formatText "bold"⟩),
    (fun t => P.isUnderline t.keyCode t.metaKey t.ctrlKey,
     fun _ => ⟨true, .formatText "underline"⟩),
    (fun t => P.isItalic t.keyCode t.metaKey t.ctrlKey,
     fun _ => ⟨true, .formatText "italic"⟩),
    (fun t => P.isTab t.keyCode t.altKey t.ctrlKey t.metaKey,
     fun _ => ⟨false, .keyTab⟩),
    (fun t => P.isUndo t.keyCode t.shiftKey t.metaKey t.ctrlKey,
     fun _ => ⟨true, .undo⟩),
    (fun t => P.isRedo t.keyCode t.shiftKey t.metaKey t.ctrlKey,
     fun _ => ⟨true, .redo⟩) ]

/-- A concrete sample predicate set (arbitrary but nontrivial), used
only to instantiate universally quantified theorems on concrete
inputs. -/
def samplePredicates : KeyPredicates where
  isMoveForward := fun kc _ _ _ _ => kc == 39
  isMoveBackward := fun kc _ _ _ _ => kc == 37
  isMoveUp := fun kc _ _ _ _ => kc == 38
  isMoveDown := fun kc _ _ _ _ => kc == 40
  isLineBreak := fun kc sh => (kc == 13) && sh
  isOpenLineBreak := fun kc ctrl => (kc == 79) && ctrl
  isParagraph := fun kc sh => (kc == 13) && !sh
  isDeleteBackward := fun kc _ _ _ => kc == 8
  isBackspace := fun kc => kc == 8
  isEscape := fun kc => kc == 27
  isDeleteForward := fun kc _ _ _ _ => kc == 46
  isDelete := fun kc => kc == 46
  isDeleteWordBackward := fun kc alt ctrl => (kc == 8) && (alt || ctrl)
  isDeleteWordForward := fun kc alt ctrl => (kc == 46) && (alt || ctrl)
  isDeleteLineBackward := fun kc meta => (kc == 8) && meta
  isDeleteLineForward := fun kc meta => (kc == 46) && meta
  isBold := fun kc meta ctrl => (kc == 66) && (meta || ctrl)
  isUnderline := fun kc meta ctrl => (kc == 85) && (meta || ctrl)
  isItalic := fun kc meta ctrl => (kc == 73) && (meta || ctrl)
  isTab := fun kc alt ctrl meta => (kc == 9) && !alt && !ctrl && !meta
  isUndo := fun kc _ meta ctrl => (kc == 90) && (meta || ctrl)
  isRedo := fun kc _ meta ctrl => (kc == 89) && (meta || ctrl)

/-- Concrete keyboard event used by witnesses. -/
def keyEvtA : KeyboardEvt := ⟨13, "Enter", false, true, false, false⟩

/-- The same tuple as `keyEvtA` but a different `key` string. -/
def keyEvtB : KeyboardEvt := ⟨13, "Bogus", false, true, false, false⟩

/-! ## Selections, nodes and observable effects -/

/-- The `type` of a selection point (`'text'` or `'element'`). -/
inductive PointType
  | text
  | element
deriving DecidableEq

/-- The observable attributes of a document node reachable from a
selection point: identity, node-kind tests (`$isElementNode`,
`$isRootNode`), the `$isTokenOrInert` atomicity test, the text format
bits (`getFormat`), and whether the node's topmost element ancestor is
empty (`getTopLevelElementOrThrow().isEmpty()`). -/
structure NodeInfo where
  nid : Nat
  isElement : Bool
  isRoot : Bool
  tokenOrInert : Bool
  format : Nat
  topLevelEmpty : Bool
deriving DecidableEq

/-- A selection point: node key, character offset, point type, and the
node it resolves to (`getNode()`). -/
structure SelPoint where
  key : String
  offset : Nat
  ptype : PointType
  node : NodeInfo
deriving DecidableEq

/-- A range selection: anchor and focus points, the `isCollapsed()`
observation, the dirty flag, and the selection format bits. -/
structure Sel where
  anchor : SelPoint
  focus : SelPoint
  collapsed : Bool
  dirty : Bool
  format : Nat
deriving DecidableEq

/-- Payload of an `insertText` command: a string, or the raw event. -/
inductive TextPayload
  | str (s : String)
  | rawEvent
deriving DecidableEq

/-- Commands dispatched by the pre-commit (`beforeinput`), `input`,
composition and click handlers. -/
inductive BCmd
  | insertText (p : TextPayload)
  | insertLineBreak
  | insertParagraph
  | paste
  | removeText
  | deleteCharacter (backward : Bool)
  | deleteWord (backward : Bool)
  | deleteLine (backward : Bool)
  | formatText (kind : String)
  | undo
  | redo
deriving DecidableEq

/-- Ordered observable effects of one handler run. -/
inductive Effect
  | preventDefault
  | stopPropagation
  | setCompositionKey (k : Option String)
  | execCmd (c : BCmd)
  | insertRawText (t : String)
  | updateTextFromDOM (compositionEnded : Bool)
  | flushMutations
deriving DecidableEq

/-- The `insertText(" ")` effect issued at composition start. -/
def insertSpaceEff : Effect := Effect.execCmd (BCmd.insertText (TextPayload.str " "))

/-- First index in an effect log satisfying a test. -/
def firstIdxWhere (p : Effect → Bool) : List Effect → Option Nat
  | [] => none
  | x :: rest => if p x then some 0 else (firstIdxWhere p rest).map (· + 1)

/-- Whether an effect records a composition key. -/
def isSetCompositionKeyEff : Effect → Bool := fun eff =>
  match eff with
  | Effect.setCompositionKey _ => true
  | _ => false

/-- The ordering assertion of the composition-start claim: the first
`insertText(" ")` effect occurs strictly before the first
composition-key recording (or no key is ever recorded). -/
def spaceIssuedBeforeCompositionKey (log : List Effect) : Bool :=
  match firstIdxWhere (fun e => e == insertSpaceEff) log,
        firstIdxWhere isSetCompositionKeyEff log with
  | some i, some j => i < j
  | some _, none => true
  | _, _ => false

/-! ## Composition start (`onCompositionStart`) -/

/-- `onCompositionStart`: with a non-null selection and the editor not
already composing, record the anchor key as composition key, then —
when the soft-key flag is false, or the anchor is an element, or the
selection is non-collapsed — issue `insertText(" ")`. -/
def onCompositionStart (lastKeyWasMaybeAndroidSoftKey isComposing : Bool)
    (sel : Option Sel) : List Effect :=
  match sel with
  | some s =>
    if isComposing = false then
      Effect.setCompositionKey (some s.anchor.key) ::
        (if lastKeyWasMaybeAndroidSoftKey = false ∨ s.anchor.ptype = PointType.element ∨
            s.collapsed = false
         then [insertSpaceEff] else [])
    else []
  | none => []

/-- Concrete collapsed text-anchored selection for composition-start
scenarios. -/
def selC5 : Sel :=
  { anchor := ⟨"t1", 2, PointType.text, ⟨1, false, false, false, 0, false⟩⟩,
    focus := ⟨"t1", 2, PointType.text, ⟨1, false, false, false, 0, false⟩⟩,
    collapsed := true, dirty := false, format := 0 }

/-! ## Composition end (`onCompositionEnd`) and event-turn deferral -/

/-- `onCompositionEndInternal`: clear the composition key, then
reconcile the surface text against the model. -/
def onCompositionEndInternal : List Effect :=
  [Effect.setCompositionKey none, Effect.updateTextFromDOM true]

/-- `onCompositionEnd`: on Firefox the internal reconciliation is
deferred past the current event turn (`setTimeout(..., 0)`); elsewhere
it runs synchronously.  Result: (synchronous effects, deferred
tasks). -/
def onCompositionEnd (isFirefox : Bool) : List Effect × List (List Effect) :=
  if isFirefox then ([], [onCompositionEndInternal])
  else (onCompositionEndInternal, [])

/-- `onInput`: stop propagation; inside the update, either dispatch
`insertText` (when the policy predicate allows) or reconcile the
selected text from the DOM, then flush mutations. -/
def onInput (shouldPreventDefaultAndInsertText : Bool) (data : Option String)
    (selPresent : Bool) : List Effect :=
  Effect.stopPropagation ::
    ((match data with
      | some d =>
        if selPresent && shouldPreventDefaultAndInsertText then
          [Effect.execCmd (BCmd.insertText (TextPayload.str d))]
        else [Effect.updateTextFromDOM false]
      | none => [Effect.updateTextFromDOM false]) ++ [Effect.flushMutations])

/-- Queued raw events of one event-queue turn relevant to composition
end: the composition-end event and subsequent text-input events. -/
inductive QEvent
  | compositionEnd
  | textInput (data : Option String) (selPresent : Bool) (shouldPrevent : Bool)
deriving DecidableEq

/-- Synchronous effects and deferred tasks of one queued event. -/
def handleQEvent (isFirefox : Bool) : QEvent → List Effect × List (List Effect)
  | QEvent.compositionEnd => onCompositionEnd isFirefox
  | QEvent.textInput d selp sp => (onInput sp d selp, [])

/-- Process a queue: accumulate synchronous effects in order and
collect deferred tasks. -/
def collectQueue (isFirefox : Bool) : List QEvent → List Effect × List (List Effect)
  | [] => ([], [])
  | e :: rest =>
    ((handleQEvent isFirefox e).1 ++ (collectQueue isFirefox rest).1,
     (handleQEvent isFirefox e).2 ++ (collectQueue isFirefox rest).2)

/-- Run a whole event turn: all synchronous effects first, then all
zero-delay deferred tasks (the `setTimeout(0)` scheduling model). -/
def runQueue (isFirefox : Bool) (q : List QEvent) : List Effect :=
  (collectQueue isFirefox q).1 ++ (collectQueue isFirefox q).2.flatten

/-- Concrete post-composition-end queue used by witnesses. -/
def postC8 : List QEvent := [QEvent.textInput (some "字") true true]

/-! ## Click correction (`onClick`) -/

/-- Modelled from the spec: `Selection.is` (defined in the selection
module, outside the analyzed file) — equality of the previously
committed and current selections, compared point-wise by key, offset
and point type. -/
def pointIs (p q : SelPoint) : Bool :=
  (p.key == q.key) && (p.offset == q.offset) && (p.ptype == q.ptype)

/-- Modelled from the spec: selection equality used by the click
correction (`selection.is(lastSelection)`). -/
def selIs (a b : Sel) : Bool :=
  pointIs a.anchor b.anchor && pointIs a.focus b.focus

/-- Inputs observed by the click handler: the current selection, the
root's top-level child count, and the previously committed
selection. -/
structure ClickCtx where
  selection : Option Sel
  rootChildrenSize : Nat
  lastSelection : Option Sel
deriving DecidableEq

/-- Result of the click handler: whether the native selection was
cleared (`removeAllRanges`), and the resulting selection object. -/
structure ClickResult where
  nativeSelectionCleared : Bool
  selection : Option Sel
deriving DecidableEq

/-- `onClick`, transcribed from the source: the native selection is
cleared and the selection marked dirty only when the anchor is an
element at offset 0, the selection is collapsed, the root has exactly
one child, the anchor's topmost element is empty, and the previously
committed selection is non-null and equal to the current one. -/
def onClick (ctx : ClickCtx) : ClickResult :=
  match ctx.selection with
  | none => ⟨false, none⟩
  | some s =>
    if (s.anchor.ptype == PointType.element) && (s.anchor.offset == 0) && s.collapsed &&
       (ctx.rootChildrenSize == 1) && s.anchor.node.topLevelEmpty then
      match ctx.lastSelection with
      | some ls => if selIs s ls then ⟨true, some {s with dirty := true}⟩ else ⟨false, some s⟩
      | none => ⟨false, some s⟩
    else ⟨false, some s⟩

/-- The claim's condition for the click correction, written from the
specification's wording: collapsed at offset 0 with an element anchor,
exactly one top-level child, empty topmost element ancestor, and a
non-null previously committed selection equal to the current one. -/
def clickCorrectionApplies (ctx : ClickCtx) : Bool :=
  match ctx.selection, ctx.lastSelection with
  | some s, some ls =>
    s.collapsed && (s.anchor.offset == 0) && (s.anchor.ptype == PointType.element) &&
      (ctx.rootChildrenSize == 1) && s.anchor.node.topLevelEmpty && selIs s ls
  | _, _ => false

/-- Concrete collapsed element-anchored selection in a sole empty
top-level block. -/
def selC9 : Sel :=
  { anchor := ⟨"p1", 0, PointType.element, ⟨3, true, false, false, 0, true⟩⟩,
    focus := ⟨"p1", 0, PointType.element, ⟨3, true, false, false, 0, true⟩⟩,
    collapsed := true, dirty := false, format := 0 }

/-- Concrete click context satisfying all correction conditions. -/
def ctxC9 : ClickCtx :=
  { selection := some selC9, rootChildrenSize := 1, lastSelection := some selC9 }

/-! ## Pre-commit input events (`onBeforeInput`) -/

/-- The recognized platform input-type strings, plus a constructor for
every unrecognized string (the switch's no-op default). -/
inductive InputType
  | deleteCompositionText
  | insertCompositionText
  | deleteContentBackward
  | insertText
  | insertFromYank
  | insertFromDrop
  | insertReplacementText
  | insertFromComposition
  | insertLineBreak
  | insertParagraph
  | insertFromPaste
  | insertFromPasteAsQuotation
  | deleteByComposition
  | deleteByDrag
  | deleteByCut
  | deleteContent
  | deleteWordBackward
  | deleteWordForward
  | deleteHardLineBackward
  | deleteSoftLineBackward
  | deleteContentForward
  | deleteHardLineForward
  | deleteSoftLineForward
  | formatStrikeThrough
  | formatBold
  | formatItalic
  | formatUnderline
  | historyUndo
  | historyRedo
  | otherInput (s : String)
deriving DecidableEq

/-- A pre-commit input event: its input type, `data` payload, the
plain-text content of its `dataTransfer` (none when absent), and the
platform-reported target ranges. -/
structure InputEvt where
  inputType : InputType
  data : Option String
  dataTransferText : Option String
  targetRanges : List Sel
deriving DecidableEq

/-- `$canRemoveText`: removal is permitted unless anchor and focus are
the same non-element token/inert node. -/
def canRemoveText (anchorNode focusNode : NodeInfo) : Bool :=
  decide (anchorNode ≠ focusNode) || anchorNode.isElement || focusNode.isElement ||
    !anchorNode.tokenOrInert || !focusNode.tokenOrInert

/-- Modelled from the spec: `applyDOMRange` (selection module, outside
the analyzed file) — the selection is set to the platform-reported
target range. -/
def applyDOMRange (_old : Sel) (r : Sel) : Sel := r

/-- `$applyTargetRange`: apply the first target range, when one is
reported. -/
def applyTargetRange (s : Sel) (ev : InputEvt) : Sel :=
  match ev.targetRanges with
  | [] => s
  | r :: _ => applyDOMRange s r

/-- The selection `onBeforeInput` operates on after the pre-check: for
a non-dirty, collapsed, non-root-anchored selection the target range is
applied first. -/
def beforeInputEffectiveSel (ev : InputEvt) (s : Sel) : Sel :=
  if !s.dirty && s.collapsed && !s.anchor.node.isRoot then applyTargetRange s ev else s

/-- The closed switch over recognized input types (after the
unconditional `preventDefault`), transcribed case by case from the
source. -/
def beforeInputSwitch (it : InputType) (anchorNode focusNode : NodeInfo) : List Effect :=
  match it with
  | .insertFromYank | .insertFromDrop | .insertReplacementText =>
    [Effect.execCmd (BCmd.insertText TextPayload.rawEvent)]
  | .insertFromComposition =>
    [Effect.setCompositionKey none, Effect.execCmd (BCmd.insertText TextPayload.rawEvent)]
  | .insertLineBreak =>
    [Effect.setCompositionKey none, Effect.execCmd BCmd.insertLineBreak]
  | .insertParagraph =>
    [Effect.setCompositionKey none, Effect.execCmd BCmd.insertParagraph]
  | .insertFromPaste | .insertFromPasteAsQuotation => [Effect.execCmd BCmd.paste]
  | .deleteByComposition =>
    if canRemoveText anchorNode focusNode then [Effect.execCmd BCmd.removeText] else []
  | .deleteByDrag | .deleteByCut => [Effect.execCmd BCmd.removeText]
  | .deleteContent => [Effect.execCmd (BCmd.deleteCharacter false)]
  | .deleteWordBackward => [Effect.execCmd (BCmd.deleteWord true)]
  | .deleteWordForward => [Effect.execCmd (BCmd.deleteWord false)]
  | .deleteHardLineBackward | .deleteSoftLineBackward =>
    [Effect.execCmd (BCmd.deleteLine true)]
  | .deleteContentForward | .deleteHardLineForward | .deleteSoftLineForward =>
    [Effect.execCmd (BCmd.deleteLine false)]
  | .formatStrikeThrough => [Effect.execCmd (BCmd.formatText "strikethrough")]
  | .formatBold => [Effect.execCmd (BCmd.formatText "bold")]
  | .formatItalic => [Effect.execCmd (BCmd.formatText "italic")]
  | .formatUnderline => [Effect.execCmd (BCmd.formatText "underline")]
  | .historyUndo => [Effect.execCmd BCmd.undo]
  | .historyRedo => [Effect.execCmd BCmd.redo]
  | _ => []

/-- `onBeforeInput`: composition fast-paths first, then the null-check
on the selection, then the Android `deleteContentBackward` special
case, the target-range pre-check, the `insertText` special cases, and
finally `preventDefault` followed by the closed switch.  The policy
predicate `$shouldPreventDefaultAndInsertText` (outside the analyzed
module) is an abstract parameter. -/
def onBeforeInput (shouldPreventDefaultAndInsertText : Sel → String → Bool → Bool)
    (ev : InputEvt) (sel : Option Sel) : List Effect :=
  if ev.inputType = InputType.deleteCompositionText ∨
     ev.inputType = InputType.insertCompositionText then []
  else
    match sel with
    | none => []
    | some s0 =>
      if ev.inputType = InputType.deleteContentBackward then
        [Effect.setCompositionKey none, Effect.preventDefault,
         Effect.execCmd (BCmd.deleteCharacter true)]
      else
        let s := beforeInputEffectiveSel ev s0
        if ev.inputType = InputType.insertText then
          match ev.data with
          | some d =>
            if d = "\n" then [Effect.preventDefault, Effect.execCmd BCmd.insertLineBreak]
            else if d = "\n\n" then
              [Effect.preventDefault, Effect.execCmd BCmd.insertParagraph]
            else if shouldPreventDefaultAndInsertText s d true then
              [Effect.preventDefault, Effect.execCmd (BCmd.insertText (TextPayload.str d))]
            else []
          | none =>
            match ev.dataTransferText with
            | some t => [Effect.preventDefault, Effect.insertRawText t]
            | none => []
        else
          Effect.preventDefault :: beforeInputSwitch ev.inputType s.anchor.node s.focus.node

/-- A concrete policy predicate instance for witnesses. -/
def spSample : Sel → String → Bool → Bool := fun _ _ _ => true

/-- A token/inert text node. -/
def atomicNode : NodeInfo := ⟨7, false, false, true, 0, false⟩

/-- Concrete selection collapsed inside a token/inert node. -/
def sC6 : Sel :=
  { anchor := ⟨"tok", 0, PointType.text, atomicNode⟩,
    focus := ⟨"tok", 0, PointType.text, atomicNode⟩,
    collapsed := true, dirty := true, format := 0 }

/-- Concrete `deleteByComposition` event with no target ranges. -/
def evC6 : InputEvt := ⟨InputType.deleteByComposition, none, none, []⟩

/-- Concrete `deleteWordBackward` event. -/
def evC7 : InputEvt := ⟨InputType.deleteWordBackward, none, none, []⟩

/-! ## Selection-change arbitration (`onDocumentSelectionChange`) -/

/-- An editor handle: its key and its parent-editor chain.  The parent
chain is a strict tree (non-owning upward references), so root-finding
is a bounded upward walk. -/
inductive EditorRef
  | root (key : String)
  | nested (key : String) (parent : EditorRef)
deriving DecidableEq

/-- The editor's `_key`. -/
def ekey : EditorRef → String
  | .root k => k
  | .nested k _ => k

/-- Whether an editor has a parent (`editor._parentEditor` truthy). -/
def isNestedEditor : EditorRef → Bool
  | .root _ => false
  | .nested _ _ => true

/-- Modelled from the spec: `getEditorsToPropagate` (defined in
`LexicalUtils`, outside the analyzed file) — the editor followed by its
ancestors walking parent-editor links, so the root ancestor is the last
element. -/
def getEditorsToPropagate : EditorRef → List EditorRef
  | .root k => [EditorRef.root k]
  | .nested k p => EditorRef.nested k p :: getEditorsToPropagate p

/-- The root ancestor of an editor (top of the parent chain). -/
def rootOf : EditorRef → EditorRef
  | .root k => EditorRef.root k
  | .nested _ p => rootOf p

/-- `editors[editors.length - 1]` with a default for the impossible
empty case. -/
def lastD : List EditorRef → EditorRef → EditorRef
  | [], d => d
  | [e], _ => e
  | _ :: e2 :: rest, d => lastD (e2 :: rest) d

/-- A DOM node on the upward walk from the platform selection's anchor:
its editability and its optional owning-editor tag
(`__lexicalEditor`). -/
structure DomNode where
  contentEditable : Bool
  lexicalEditor : Option EditorRef
deriving DecidableEq

/-- The upward walk of `onDocumentSelectionChange`: the first ancestor
that is editable and tagged with an editor wins; an editable ancestor
without a tag is skipped. -/
def findEditor : List DomNode → Option EditorRef
  | [] => none
  | n :: rest =>
    if n.contentEditable then
      match n.lexicalEditor with
      | some e => some e
      | none => findEditor rest
    else findEditor rest

/-- The active-nested-editors map, as the partial function
key → editor that a JS `Map` denotes (only `get`, `set` and `delete`
are ever used on it). -/
def NestedMap : Type := String → Option EditorRef

/-- The empty map. -/
def emptyNestedMap : NestedMap := fun _ => none

/-- Removal of a key (`Map.delete`). -/
def aerase (k : String) (m : NestedMap) : NestedMap :=
  fun x => if x = k then none else m x

/-- Insertion/overwrite of a key (`Map.set`). -/
def ainsert (k : String) (v : EditorRef) (m : NestedMap) : NestedMap :=
  fun x => if x = k then some v else m x

/-- The selection transform of `onSelectionChange`: a deactivated
editor's selection becomes null; an activated editor's collapsed
selection has its format recomputed (text anchor: the anchor node's
format bits; element anchor: zero). -/
def onSelectionChangeSel (sel : Option Sel) (isActive : Bool) : Option Sel :=
  if isActive = false then none
  else
    match sel with
    | none => none
    | some s =>
      if s.collapsed then
        match s.anchor.ptype with
        | PointType.text => some {s with format := s.anchor.node.format}
        | PointType.element => some {s with format := 0}
      else some s

/-- Arbitration state: the process-wide active-nested-editors map, each
editor's selection, and the ordered log of (editor, isActive) updates
delivered by `onSelectionChange`. -/
structure ArbState where
  map : NestedMap
  sels : EditorRef → Option Sel
  log : List (EditorRef × Bool)

/-- Pointwise update of the per-editor selection assignment. -/
def updSel (f : EditorRef → Option Sel) (e : EditorRef) (v : Option Sel) :
    EditorRef → Option Sel :=
  fun x => if x = e then v else f x

/-- `onSelectionChange(editor, isActive)` as a state transform: the
editor's selection is updated inside its own transactional update, and
the update is logged. -/
def onSelectionChange (st : ArbState) (editor : EditorRef) (isActive : Bool) : ArbState :=
  { st with
    sels := updSel st.sels editor (onSelectionChangeSel (st.sels editor) isActive),
    log := st.log ++ [(editor, isActive)] }

/-- `onDocumentSelectionChange`, transcribed from the source: find the
owning editor by the upward DOM walk, compute its root and the
previously active editor, deactivate the previous editor when it
differs, activate the new one, then update the map (record a nested
editor, remove the entry when the root itself became active). -/
def onDocumentSelectionChange (st : ArbState) (chain : List DomNode) : ArbState :=
  match findEditor chain with
  | none => st
  | some nextActiveEditor =>
    let editors := getEditorsToPropagate nextActiveEditor
    let rootEditor := lastD editors nextActiveEditor
    let rootEditorKey := ekey rootEditor
    let activeNestedEditor := st.map rootEditorKey
    let prevActiveEditor := activeNestedEditor.getD rootEditor
    let st1 := if prevActiveEditor ≠ nextActiveEditor
               then onSelectionChange st prevActiveEditor false else st
    let st2 := onSelectionChange st1 nextActiveEditor true
    if nextActiveEditor ≠ rootEditor then
      {st2 with map := ainsert rootEditorKey nextActiveEditor st2.map}
    else if activeNestedEditor.isSome then
      {st2 with map := aerase rootEditorKey st2.map}
    else st2

/-- `cleanActiveNestedEditorsMap`: for a nested editor, remove its
root's entry when that entry is this editor; for a top-level editor,
remove the entry under its own key. -/
def cleanActiveNestedEditorsMap (editor : EditorRef) (m : NestedMap) : NestedMap :=
  match editor with
  | EditorRef.nested k p =>
    let editors := getEditorsToPropagate (EditorRef.nested k p)
    let rootEditor := lastD editors (EditorRef.nested k p)
    let rootEditorKey := ekey rootEditor
    if m rootEditorKey = some (EditorRef.nested k p) then aerase rootEditorKey m
    else m
  | EditorRef.root k => aerase k m

/-- One observable arbitration event: a document-level selection-change
notification (given as the anchor's ancestor chain) or an editor
teardown. -/
inductive ArbOp
  | selChange (chain : List DomNode)
  | teardown (editor : EditorRef)

/-- One arbitration step. -/
def stepArb (st : ArbState) : ArbOp → ArbState
  | ArbOp.selChange chain => onDocumentSelectionChange st chain
  | ArbOp.teardown e => {st with map := cleanActiveNestedEditorsMap e st.map}

/-- A whole sequence of arbitration events. -/
def runArb (st : ArbState) : List ArbOp → ArbState
  | [] => st
  | op :: rest => runArb (stepArb st op) rest

/-- Well-formedness of the map: every value is a nested editor, stored
under its root's key. -/
def mapInv (m : NestedMap) : Prop :=
  ∀ k e, m k = some e → isNestedEditor e = true ∧ ekey (rootOf e) = k

/-- Root editor R for concrete arbitration scenarios. -/
def edR : EditorRef := EditorRef.root "r"

/-- Nested editor A under R. -/
def edA : EditorRef := EditorRef.nested "a" edR

/-- Nested editor B under R. -/
def edB : EditorRef := EditorRef.nested "b" edR

/-- Concrete arbitration state: A is R's active nested editor; A and B
hold collapsed text selections. -/
def st0C2 : ArbState :=
  { map := fun k => if k = "r" then some edA else none,
    sels := fun e => if e = edA then some selC5 else if e = edB then some selC5 else none,
    log := [] }

/-- Concrete ancestor chain whose first editable tagged node is B. -/
def chainC2 : List DomNode := [⟨true, some edB⟩]

/-- Concrete ancestor chain resolving to the root editor R itself. -/
def chainC3root : List DomNode := [⟨true, some edR⟩]

/-- Concrete arbitration event sequence: B becomes active under R, then
B is torn down. -/
def opsC3 : List ArbOp := [ArbOp.selChange chainC2, ArbOp.teardown edB]

/-! ## Listener registration and teardown
(`addRootElementEvents` / `removeRootElementEvents`) -/

/-- Per-surface registration state: the listeners currently installed
on the surface (event name × identity of the handler closure), the
recorded removal callbacks (`_lexicalEventHandles`), a counter
allocating fresh closure identities, and the surface→editor
back-reference (`__lexicalEditor`, set only by
`addDocumentSelectionChangeEvent`). -/
structure SurfaceState where
  listeners : List (String × Nat)
  removeHandles : List (String × Nat)
  nextId : Nat
  lexicalEditor : Option EditorRef
deriving DecidableEq

/-- The fixed ordered event table of `rootElementEvents`: the
platform-conditional entry registers `beforeinput` when pre-commit
input events are supported and `drop` otherwise. -/
def rootElementEventNames (canUseBeforeInput : Bool) : List String :=
  ["keydown", "compositionstart", "compositionend", "input", "click",
   "cut", "copy", "dragstart", "paste", "focus", "blur"] ++
  (if canUseBeforeInput then ["beforeinput"] else ["drop"])

/-- The registration loop of `addRootElementEvents`: for each table
entry, install a fresh handler closure and push one removal callback
onto the surface's handle list. -/
def registerEvents : List String → SurfaceState → SurfaceState
  | [], st => st
  | name :: rest, st =>
    registerEvents rest
      { st with listeners := st.listeners ++ [(name, st.nextId)],
                removeHandles := st.removeHandles ++ [(name, st.nextId)],
                nextId := st.nextId + 1 }

/-- The listener/handle pairs produced by one registration pass
starting at a given fresh-identity counter (closed form of the
registration loop). -/
def regPairs : List String → Nat → List (String × Nat)
  | [], _ => []
  | n :: rest, i => (n, i) :: regPairs rest (i + 1)

/-- `addRootElementEvents` (the editor argument is captured only inside
the handler closures and does not affect registration). -/
def addRootElementEvents (canUseBeforeInput : Bool) (st : SurfaceState) : SurfaceState :=
  registerEvents (rootElementEventNames canUseBeforeInput) st

/-- `addDocumentSelectionChangeEvent`: records the surface→editor
back-reference (the lazily installed per-document listener has no
bearing on per-surface registration). -/
def addDocumentSelectionChangeEvent (st : SurfaceState) (editor : EditorRef) :
    SurfaceState :=
  { st with lexicalEditor := some editor }

/-- `removeEventListener`: removes the first (and in practice only)
registration of exactly this handler closure for this event name. -/
def removeListener (name : String) (hid : Nat) :
    List (String × Nat) → List (String × Nat)
  | [] => []
  | l :: rest => if l = (name, hid) then rest else l :: removeListener name hid rest

/-- Invoking the recorded removal callbacks in order. -/
def runRemoveHandles : List (String × Nat) → List (String × Nat) → List (String × Nat)
  | [], listeners => listeners
  | (name, hid) :: rest, listeners =>
    runRemoveHandles rest (removeListener name hid listeners)

/-- The runtime error raised when `cleanActiveNestedEditorsMap`
dereferences `_parentEditor` on an undefined/null editor. -/
inductive DetachError
  | undefinedEditorDeref
deriving DecidableEq

/-- `cleanActiveNestedEditorsMap` as called from detach with the raw
back-reference: a missing editor makes the `_parentEditor` read
throw. -/
def cleanActiveNestedEditorsMapChecked :
    Option EditorRef → NestedMap → Except DetachError NestedMap
  | none, _ => Except.error DetachError.undefinedEditorDeref
  | some e, m => Except.ok (cleanActiveNestedEditorsMap e m)

/-- `removeRootElementEvents`: clean the arbitration map first (using
the stored back-reference), null the back-reference, invoke every
removal callback, clear the handle list.  A thrown error aborts before
any removal happens. -/
def removeRootElementEvents (st : SurfaceState) (m : NestedMap) :
    Except DetachError (SurfaceState × NestedMap) :=
  match cleanActiveNestedEditorsMapChecked st.lexicalEditor m with
  | Except.error err => Except.error err
  | Except.ok m2 =>
    Except.ok
      ({ st with lexicalEditor := none,
                 listeners := runRemoveHandles st.removeHandles st.listeners,
                 removeHandles := [] }, m2)

/-- JS `throw` semantics for detach: on error no statement after the
throw runs, so the surface (and map) are left unchanged. -/
def applyRemoveRootElementEvents (st : SurfaceState) (m : NestedMap) :
    SurfaceState × NestedMap × Option DetachError :=
  match removeRootElementEvents st m with
  | Except.ok (st2, m2) => (st2, m2, none)
  | Except.error err => (st, m, some err)

/-- The handler closures that run when an event fires on the surface:
every installed listener matching the event name, in registration
order, gated by editability. -/
def handlerFirings (listeners : List (String × Nat)) (evName : String)
    (editable : Bool) : List Nat :=
  if editable then (listeners.filter (fun l => l.1 == evName)).map (fun l => l.2) else []

/-- The observable command stream over an event sequence: each firing
handler produces one dispatch to the command executor (for the
pass-through entries, a command named after the event type). -/
def commandStream (listeners : List (String × Nat)) (events : List String)
    (editable : Bool) : List String :=
  (events.map (fun ev => (handlerFirings listeners ev editable).map (fun _ => ev))).flatten

/-- A surface that has never been attached. -/
def freshSurface : SurfaceState := ⟨[], [], 0, none⟩

/-- The normal attach flow done once: back-reference recorded, then the
event table registered. -/
def attachOnce (canUseBeforeInput : Bool) (ed : EditorRef) : SurfaceState :=
  addRootElementEvents canUseBeforeInput
    (addDocumentSelectionChangeEvent freshSurface ed)

/-- Attach performed twice on the same surface before any detach. -/
def attachTwice (canUseBeforeInput : Bool) (ed : EditorRef) : SurfaceState :=
  addRootElementEvents canUseBeforeInput
    (addRootElementEvents canUseBeforeInput
      (addDocumentSelectionChangeEvent freshSurface ed))

/-- A surface whose back-reference was recorded but with no listeners
registered yet. -/
def surfaceWithBackref : SurfaceState :=
  addDocumentSelectionChangeEvent freshSurface edR

/-! ## Theorems -/

/-- The translation chain equals first-match-wins evaluation of the
ordered keyboard table (helper for the claim theorem). -/
theorem onKeyDownDispatch_eq_firstMatch (P : KeyPredicates) (t : KeyInput) :
    onKeyDownDispatch P t = firstMatch (keyDownTable P) t := by
  simp only [onKeyDownDispatch, keyDownTable, firstMatch, apply_ite Option.some]

/-- C1: while the editor is not composing, the dispatched keyboard
command is a pure, deterministic function of the tuple
(key code, ctrl, shift, alt, meta) — two events agreeing on the tuple
produce the same dispatch, for every predicate implementation — and the
dispatch equals first-match-wins evaluation of the fixed top-to-bottom
table, so the first matching predicate wins. -/
theorem onKeyDown_deterministic_and_first_match_wins
    (P : KeyPredicates) (c1 c2 : Bool) (e1 e2 : KeyboardEvt)
    (h1 : c1 = false) (h2 : c2 = false)
    (ht : toKeyInput e1 = toKeyInput e2) :
    (onKeyDown P c1 e1).1 = (onKeyDown P c2 e2).1 ∧
    (onKeyDown P c1 e1).1 = firstMatch (keyDownTable P) (toKeyInput e1) := by
  subst h1 h2
  constructor
  · simp only [onKeyDown, if_neg Bool.false_ne_true, ht]
  · simp only [onKeyDown, if_neg Bool.false_ne_true]
    exact onKeyDownDispatch_eq_firstMatch P (toKeyInput e1)

/-- Witness for C1 at concrete inputs: the two events share the tuple
but differ in the `key` string; hypotheses discharged by evaluation. -/
theorem onKeyDown_deterministic_and_first_match_wins_witness :
    (onKeyDown samplePredicates false keyEvtA).1 =
      (onKeyDown samplePredicates false keyEvtB).1 ∧
    (onKeyDown samplePredicates false keyEvtA).1 =
      firstMatch (keyDownTable samplePredicates) (toKeyInput keyEvtA) :=
  onKeyDown_deterministic_and_first_match_wins samplePredicates false false
    keyEvtA keyEvtB rfl rfl (by decide)

/-- C5 counterexample: in the claimed scenario (soft-key flag false,
not composing, collapsed text-anchored selection) exactly one
`insertText(" ")` is issued, but it is NOT issued before the
composition key is recorded — the source records the key first. -/
theorem onCompositionStart_space_not_before_key :
    (onCompositionStart false false (some selC5)).count insertSpaceEff = 1 ∧
    spaceIssuedBeforeCompositionKey (onCompositionStart false false (some selC5)) = false := by
  decide

/-- C5 (amended): for a composition-start with a non-null collapsed
text-anchored selection, the editor not composing and the soft-key flag
false, exactly one `insertText(" ")` command is issued, and it is
issued immediately after the composition key is recorded (after the
editor enters the Composing state), not before. -/
theorem onCompositionStart_space_after_key
    (flag composing : Bool) (sel : Option Sel) (s : Sel)
    (hs : sel = some s) (hflag : flag = false) (hcomp : composing = false)
    (hcol : s.collapsed = true) (hty : s.anchor.ptype = PointType.text) :
    onCompositionStart flag composing sel =
      [Effect.setCompositionKey (some s.anchor.key), insertSpaceEff] := by
  subst hs hflag hcomp
  simp [onCompositionStart]

/-- Witness for C5's amended theorem at the concrete scenario input. -/
theorem onCompositionStart_space_after_key_witness :
    onCompositionStart false false (some selC5) =
      [Effect.setCompositionKey (some selC5.anchor.key), insertSpaceEff] :=
  onCompositionStart_space_after_key false false (some selC5) selC5 rfl rfl rfl rfl rfl

/-- A queue containing no composition-end event defers nothing
(helper). -/
theorem collectQueue_deferred_nil (ff : Bool) (post : List QEvent)
    (h : QEvent.compositionEnd ∉ post) : (collectQueue ff post).2 = [] := by
  induction post with
  | nil => rfl
  | cons e rest ih =>
    simp only [List.mem_cons, not_or] at h
    obtain ⟨h1, h2⟩ := h
    cases e with
    | compositionEnd => exact absurd rfl h1
    | textInput d selp sp => simpa [collectQueue, handleQEvent] using ih h2

/-- C8: on Firefox, composition-end reconciliation is deferred past the
current event turn, so it runs after the effects of every intervening
queued event (in particular the text-input event); on every other
platform it runs synchronously, before the subsequent events'
effects. -/
theorem onCompositionEnd_firefox_defers_reconciliation (post : List QEvent)
    (h : QEvent.compositionEnd ∉ post) :
    runQueue true (QEvent.compositionEnd :: post) =
      (collectQueue true post).1 ++ onCompositionEndInternal ∧
    runQueue false (QEvent.compositionEnd :: post) =
      onCompositionEndInternal ++ (collectQueue false post).1 := by
  constructor
  · simp [runQueue, collectQueue, handleQEvent, onCompositionEnd,
      collectQueue_deferred_nil true post h]
  · simp [runQueue, collectQueue, handleQEvent, onCompositionEnd,
      collectQueue_deferred_nil false post h]

/-- Witness for C8 with a concrete intervening text-input event. -/
theorem onCompositionEnd_firefox_defers_reconciliation_witness :
    (QEvent.compositionEnd ∉ postC8) ∧
    (runQueue true (QEvent.compositionEnd :: postC8) =
      (collectQueue true postC8).1 ++ onCompositionEndInternal ∧
     runQueue false (QEvent.compositionEnd :: postC8) =
      onCompositionEndInternal ++ (collectQueue false postC8).1) :=
  ⟨by decide, onCompositionEnd_firefox_defers_reconciliation postC8 (by decide)⟩

/-- `onClick` in guarded form: the corrective branch runs exactly when
the claim's condition holds (helper). -/
theorem onClick_characterization (ctx : ClickCtx) :
    onClick ctx =
      if clickCorrectionApplies ctx = true
      then ⟨true, ctx.selection.map (fun s => {s with dirty := true})⟩
      else ⟨false, ctx.selection⟩ := by
  obtain ⟨sel, size, last⟩ := ctx
  cases sel with
  | none => simp [onClick, clickCorrectionApplies]
  | some s =>
    cases last with
    | none =>
      simp only [onClick, clickCorrectionApplies]
      split <;> rfl
    | some ls =>
      simp only [onClick, clickCorrectionApplies]
      by_cases h1 : (s.anchor.ptype == PointType.element) = true <;>
      by_cases h2 : (s.anchor.offset == 0) = true <;>
      by_cases h3 : s.collapsed = true <;>
      by_cases h4 : (size == 1) = true <;>
      by_cases h5 : s.anchor.node.topLevelEmpty = true <;>
      by_cases h6 : selIs s ls = true <;>
      simp_all [Bool.not_eq_true]

/-- C9: a primary click clears the native selection and marks the
selection dirty exactly when the selection is collapsed at offset 0
with an element anchor, the root has exactly one top-level child, the
anchor's topmost element ancestor is empty, and the selection equals
the non-null previously committed selection; any click failing these
conditions leaves the native selection and the selection object
untouched. -/
theorem onClick_click_correction (ctx : ClickCtx) :
    ((onClick ctx).nativeSelectionCleared = true ↔ clickCorrectionApplies ctx = true) ∧
    (clickCorrectionApplies ctx = false → onClick ctx = ⟨false, ctx.selection⟩) ∧
    (∀ s, ctx.selection = some s → clickCorrectionApplies ctx = true →
      onClick ctx = ⟨true, some {s with dirty := true}⟩) := by
  have hc := onClick_characterization ctx
  refine ⟨?_, ?_, ?_⟩
  · rw [hc]
    by_cases h : clickCorrectionApplies ctx = true <;> simp [h]
  · intro h
    rw [hc]
    simp [h]
  · intro s hsel h
    rw [hc]
    simp [h, hsel]

/-- Witness for C9: at the concrete matching click context, the native
selection is cleared and the selection marked dirty. -/
theorem onClick_click_correction_witness :
    onClick ctxC9 = ⟨true, some {selC9 with dirty := true}⟩ :=
  (onClick_click_correction ctxC9).2.2 selC9 rfl (by decide)

/-- The removability guard in propositional form: removal is permitted
iff anchor and focus are not the same non-element token/inert node
(helper). -/
theorem canRemoveText_iff (a f : NodeInfo) :
    canRemoveText a f = true ↔
      ¬(a = f ∧ a.isElement = false ∧ a.tokenOrInert = true) := by
  simp only [canRemoveText, Bool.or_eq_true, decide_eq_true_eq, Bool.not_eq_true']
  by_cases haf : a = f
  · subst haf
    rcases Bool.eq_false_or_eq_true a.isElement with h1 | h1 <;>
      rcases Bool.eq_false_or_eq_true a.tokenOrInert with h2 | h2 <;>
      simp [h1, h2]
  · simp [haf]

/-- C6: for a pre-commit `deleteByComposition` event with a non-null
selection, `removeText` is dispatched iff the (post-target-range)
anchor node and focus node are not the same non-element token/inert
node; equivalently it is suppressed exactly on a same atomic node. -/
theorem onBeforeInput_deleteByComposition_guard
    (sp : Sel → String → Bool → Bool) (ev : InputEvt) (s0 : Sel)
    (hit : ev.inputType = InputType.deleteByComposition) :
    Effect.execCmd BCmd.removeText ∈ onBeforeInput sp ev (some s0) ↔
      ¬((beforeInputEffectiveSel ev s0).anchor.node =
          (beforeInputEffectiveSel ev s0).focus.node ∧
        (beforeInputEffectiveSel ev s0).anchor.node.isElement = false ∧
        (beforeInputEffectiveSel ev s0).anchor.node.tokenOrInert = true) := by
  obtain ⟨it, d, dt, tr⟩ := ev
  simp only at hit
  subst hit
  rw [← canRemoveText_iff]
  simp only [onBeforeInput, beforeInputSwitch]
  norm_num
  by_cases h : canRemoveText (beforeInputEffectiveSel ⟨InputType.deleteByComposition, d, dt, tr⟩ s0).anchor.node
      (beforeInputEffectiveSel ⟨InputType.deleteByComposition, d, dt, tr⟩ s0).focus.node <;>
    simp [h]

/-- Witness for C6: concrete collapsed selection on a single token/inert
node, on which the composition-originated delete is suppressed. -/
theorem onBeforeInput_deleteByComposition_guard_witness :
    Effect.execCmd BCmd.removeText ∈ onBeforeInput spSample evC6 (some sC6) ↔
      ¬((beforeInputEffectiveSel evC6 sC6).anchor.node =
          (beforeInputEffectiveSel evC6 sC6).focus.node ∧
        (beforeInputEffectiveSel evC6 sC6).anchor.node.isElement = false ∧
        (beforeInputEffectiveSel evC6 sC6).anchor.node.tokenOrInert = true) :=
  onBeforeInput_deleteByComposition_guard spSample evC6 sC6 rfl

/-- C7: a pre-commit `deleteWordBackward` event with a non-null
selection produces exactly `preventDefault` followed by a single
`deleteWord(true)` command. -/
theorem onBeforeInput_deleteWordBackward
    (sp : Sel → String → Bool → Bool) (ev : InputEvt) (s0 : Sel)
    (hit : ev.inputType = InputType.deleteWordBackward) :
    onBeforeInput sp ev (some s0) =
      [Effect.preventDefault, Effect.execCmd (BCmd.deleteWord true)] := by
  obtain ⟨it, d, dt, tr⟩ := ev
  simp only at hit
  subst hit
  simp [onBeforeInput, beforeInputSwitch]

/-- Witness for C7 at a concrete event and selection. -/
theorem onBeforeInput_deleteWordBackward_witness :
    onBeforeInput spSample evC7 (some sC6) =
      [Effect.preventDefault, Effect.execCmd (BCmd.deleteWord true)] :=
  onBeforeInput_deleteWordBackward spSample evC7 sC6 rfl

/-- Deactivation always nulls the selection (helper, by definition). -/
theorem onSelectionChangeSel_false (sel : Option Sel) :
    onSelectionChangeSel sel false = none := rfl

/-- `editors[editors.length - 1]` is the root ancestor (helper). -/
theorem lastD_propagate (e d : EditorRef) :
    lastD (getEditorsToPropagate e) d = rootOf e := by
  induction e generalizing d with
  | root k => rfl
  | nested k p ih =>
    cases p with
    | root k2 => rfl
    | nested k2 p2 =>
      simpa [getEditorsToPropagate, lastD, rootOf] using ih d

/-- The root ancestor is always a root editor (helper). -/
theorem rootOf_eq_root (e : EditorRef) : ∃ k, rootOf e = EditorRef.root k := by
  induction e with
  | root k => exact ⟨k, rfl⟩
  | nested k p ih => exact ih

/-- An editor differing from its own root ancestor is nested
(helper). -/
theorem ne_rootOf_nested (e : EditorRef) (h : e ≠ rootOf e) :
    isNestedEditor e = true := by
  cases e with
  | root k => exact absurd rfl h
  | nested k p => rfl

/-- A nested editor differs from its root ancestor (helper). -/
theorem nested_ne_rootOf (e : EditorRef) (h : isNestedEditor e = true) :
    e ≠ rootOf e := by
  cases e with
  | root k => simp [isNestedEditor] at h
  | nested k p =>
    obtain ⟨k2, hk2⟩ := rootOf_eq_root (EditorRef.nested k p)
    rw [hk2]
    intro hcontra
    exact EditorRef.noConfusion hcontra

/-- C2: when a document-level selection change moves the active editor
from nested editor A (recorded in the map under root R's key) to a
different nested editor B under the same root R, then A receives a
deactivation update setting its selection to null, B receives an
activation update recomputing a collapsed selection's format (text
anchor: the anchor node's format bits; element anchor: zero), the
updates happen in that order, and the map's entry for R's key becomes
B. -/
theorem onDocumentSelectionChange_nested_to_nested
    (st : ArbState) (chain : List DomNode) (A B : EditorRef)
    (hfind : findEditor chain = some B)
    (hBnest : isNestedEditor B = true)
    (hAnest : isNestedEditor A = true)
    (hroots : rootOf A = rootOf B)
    (hA : st.map (ekey (rootOf B)) = some A)
    (hAB : A ≠ B) :
    (onDocumentSelectionChange st chain).sels A = none ∧
    (onDocumentSelectionChange st chain).sels B =
      onSelectionChangeSel (st.sels B) true ∧
    (∀ s, st.sels B = some s → s.collapsed = true → s.anchor.ptype = PointType.text →
      (onDocumentSelectionChange st chain).sels B =
        some {s with format := s.anchor.node.format}) ∧
    (∀ s, st.sels B = some s → s.collapsed = true → s.anchor.ptype = PointType.element →
      (onDocumentSelectionChange st chain).sels B = some {s with format := 0}) ∧
    (onDocumentSelectionChange st chain).map (ekey (rootOf B)) = some B ∧
    (onDocumentSelectionChange st chain).log = st.log ++ [(A, false), (B, true)] := by
  have hBroot : B ≠ rootOf B := nested_ne_rootOf B hBnest
  have hBA : B ≠ A := fun h => hAB h.symm
  have hstep : onDocumentSelectionChange st chain =
      { map := ainsert (ekey (rootOf B)) B st.map,
        sels := updSel (updSel st.sels A none) B
          (onSelectionChangeSel (updSel st.sels A none B) true),
        log := st.log ++ [(A, false)] ++ [(B, true)] } := by
    rw [onDocumentSelectionChange, hfind]
    simp only [lastD_propagate, hA, Option.getD_some]
    rw [if_pos (by exact fun hc => hBroot hc)]
    rw [if_pos (by exact fun hc => hAB hc)]
    simp [onSelectionChange, onSelectionChangeSel_false]
  have h1 : (onDocumentSelectionChange st chain).sels A = none := by
    rw [hstep]
    show updSel (updSel st.sels A none) B
      (onSelectionChangeSel (updSel st.sels A none B) true) A = none
    simp [updSel, hAB]
  have h2 : (onDocumentSelectionChange st chain).sels B =
      onSelectionChangeSel (st.sels B) true := by
    rw [hstep]
    show updSel (updSel st.sels A none) B
      (onSelectionChangeSel (updSel st.sels A none B) true) B =
      onSelectionChangeSel (st.sels B) true
    simp [updSel, hBA]
  refine ⟨h1, h2, ?_, ?_, ?_, ?_⟩
  · intro s hs hcol hty
    rw [h2, hs]
    simp [onSelectionChangeSel, hcol, hty]
  · intro s hs hcol hty
    rw [h2, hs]
    simp [onSelectionChangeSel, hcol, hty]
  · rw [hstep]
    show ainsert (ekey (rootOf B)) B st.map (ekey (rootOf B)) = some B
    simp [ainsert]
  · rw [hstep]
    simp

/-- Witness for C2 at a concrete root R with nested editors A and B,
where A is the recorded active nested editor and the DOM walk finds
B. -/
theorem onDocumentSelectionChange_nested_to_nested_witness :
    (onDocumentSelectionChange st0C2 chainC2).sels edA = none ∧
    (onDocumentSelectionChange st0C2 chainC2).sels edB =
      onSelectionChangeSel (st0C2.sels edB) true ∧
    (onDocumentSelectionChange st0C2 chainC2).map (ekey (rootOf edB)) = some edB ∧
    (onDocumentSelectionChange st0C2 chainC2).log =
      st0C2.log ++ [(edA, false), (edB, true)] := by
  have h := onDocumentSelectionChange_nested_to_nested st0C2 chainC2 edA edB
    (by decide) (by decide) (by decide) (by decide) (by decide) (by decide)
  exact ⟨h.1, h.2.1, h.2.2.2.2.1, h.2.2.2.2.2⟩

/-- One arbitration step preserves map well-formedness (helper). -/
theorem stepArb_mapInv (st : ArbState) (op : ArbOp) (h : mapInv st.map) :
    mapInv (stepArb st op).map := by
  cases op with
  | teardown e =>
    cases e with
    | root k =>
      intro k2 v hv
      simp only [stepArb, cleanActiveNestedEditorsMap, aerase] at hv
      split at hv
      · exact absurd hv (by simp)
      · exact h k2 v hv
    | nested k p =>
      intro k2 v hv
      simp only [stepArb, cleanActiveNestedEditorsMap] at hv
      split at hv
      · simp only [aerase] at hv
        split at hv
        · exact absurd hv (by simp)
        · exact h k2 v hv
      · exact h k2 v hv
  | selChange chain =>
    simp only [stepArb, onDocumentSelectionChange]
    cases hf : findEditor chain with
    | none => exact h
    | some nx =>
      simp only [lastD_propagate, apply_ite ArbState.map, onSelectionChange, ite_self]
      split
      · rename_i hne
        intro k v hv
        simp only [ainsert] at hv
        split at hv
        · rename_i hk
          injection hv with hv2
          subst hv2
          exact ⟨ne_rootOf_nested nx (fun hc => hne hc), hk.symm⟩
        · exact h k v hv
      · split
        · intro k v hv
          simp only [aerase] at hv
          split at hv
          · exact absurd hv (by simp)
          · exact h k v hv
        · exact h

/-- Any arbitration run preserves map well-formedness (helper). -/
theorem runArb_mapInv (ops : List ArbOp) (st : ArbState) (h : mapInv st.map) :
    mapInv (runArb st ops).map := by
  induction ops generalizing st with
  | nil => exact h
  | cons op rest ih => exact ih (stepArb st op) (stepArb_mapInv st op h)

/-- C3: over every sequence of selection-change notifications and
editor teardowns starting from the empty map, the active-nested-editors
map never maps a root editor's key to that root editor itself; a
notification that makes a root editor itself active leaves no entry
under its key; and a teardown removes every entry referencing the
torn-down editor. -/
theorem activeNestedEditorsMap_never_self_root
    (ops : List ArbOp) (sels0 : EditorRef → Option Sel) :
    (∀ k, (runArb ⟨emptyNestedMap, sels0, []⟩ ops).map k ≠ some (EditorRef.root k)) ∧
    (∀ chain k, findEditor chain = some (EditorRef.root k) →
      (stepArb (runArb ⟨emptyNestedMap, sels0, []⟩ ops)
        (ArbOp.selChange chain)).map k = none) ∧
    (∀ e k, (stepArb (runArb ⟨emptyNestedMap, sels0, []⟩ ops)
        (ArbOp.teardown e)).map k ≠ some e) := by
  have hinv : mapInv (runArb ⟨emptyNestedMap, sels0, []⟩ ops).map := by
    refine runArb_mapInv ops _ ?_
    intro k e he
    exact absurd he (by simp [emptyNestedMap])
  refine ⟨?_, ?_, ?_⟩
  · intro k hcon
    obtain ⟨h1, _⟩ := hinv k _ hcon
    simp [isNestedEditor] at h1
  · intro chain k hf
    simp only [stepArb, onDocumentSelectionChange, hf]
    simp only [lastD_propagate, apply_ite ArbState.map, onSelectionChange, ite_self]
    rw [if_neg (by simp [rootOf])]
    cases hm : (runArb ⟨emptyNestedMap, sels0, []⟩ ops).map (ekey (rootOf (EditorRef.root k))) with
    | none =>
      simp only [hm, Option.isSome_none, Bool.false_eq_true, if_false]
      simpa [rootOf, ekey] using hm
    | some v =>
      simp only [hm, Option.isSome_some, if_true]
      simp [aerase, rootOf, ekey]
  · intro e k hcon
    cases e with
    | root k0 =>
      simp only [stepArb, cleanActiveNestedEditorsMap, aerase] at hcon
      split at hcon
      · exact absurd hcon (by simp)
      · obtain ⟨h1, _⟩ := hinv k _ hcon
        simp [isNestedEditor] at h1
    | nested k0 p =>
      simp only [stepArb, cleanActiveNestedEditorsMap, lastD_propagate] at hcon
      split at hcon
      · rename_i hc
        simp only [aerase] at hcon
        split at hcon
        · exact absurd hcon (by simp)
        · rename_i hk
          obtain ⟨_, hkey⟩ := hinv k _ hcon
          exact hk hkey.symm
      · rename_i hc
        obtain ⟨_, hkey⟩ := hinv k _ hcon
        rw [← hkey] at hcon
        exact hc hcon

/-- Witness for C3: a concrete run (B activated under R, then B torn
down), instantiating all three conjuncts at concrete keys, chains and
editors. -/
theorem activeNestedEditorsMap_never_self_root_witness :
    (runArb ⟨emptyNestedMap, (fun _ => none), []⟩ opsC3).map "r" ≠
      some (EditorRef.root "r") ∧
    (stepArb (runArb ⟨emptyNestedMap, (fun _ => none), []⟩ opsC3)
      (ArbOp.selChange chainC3root)).map "r" = none ∧
    (stepArb (runArb ⟨emptyNestedMap, (fun _ => none), []⟩ opsC3)
      (ArbOp.teardown edB)).map "r" ≠ some edB := by
  have h := activeNestedEditorsMap_never_self_root opsC3 (fun _ => none)
  exact ⟨h.1 "r", h.2.1 chainC3root "r" rfl, h.2.2 edB "r"⟩

/-- Closed form of the registration loop (helper). -/
theorem registerEvents_spec (names : List String) (st : SurfaceState) :
    registerEvents names st =
      { listeners := st.listeners ++ regPairs names st.nextId,
        removeHandles := st.removeHandles ++ regPairs names st.nextId,
        nextId := st.nextId + names.length,
        lexicalEditor := st.lexicalEditor } := by
  induction names generalizing st with
  | nil => simp [registerEvents, regPairs]
  | cons n rest ih =>
    rw [registerEvents, ih]
    simp [regPairs, SurfaceState.mk.injEq, List.append_assoc]
    omega

/-- The surface after one attach, in closed form (helper). -/
theorem attachOnce_eq (canUseBeforeInput : Bool) (ed : EditorRef) :
    attachOnce canUseBeforeInput ed =
      { listeners := regPairs (rootElementEventNames canUseBeforeInput) 0,
        removeHandles := regPairs (rootElementEventNames canUseBeforeInput) 0,
        nextId := 12, lexicalEditor := some ed } := by
  cases canUseBeforeInput <;>
    (rw [attachOnce, addRootElementEvents, registerEvents_spec]
     simp [addDocumentSelectionChangeEvent, freshSurface, rootElementEventNames])

/-- The surface after two attaches, in closed form (helper). -/
theorem attachTwice_eq (canUseBeforeInput : Bool) (ed : EditorRef) :
    attachTwice canUseBeforeInput ed =
      { listeners := regPairs (rootElementEventNames canUseBeforeInput) 0 ++
          regPairs (rootElementEventNames canUseBeforeInput) 12,
        removeHandles := regPairs (rootElementEventNames canUseBeforeInput) 0 ++
          regPairs (rootElementEventNames canUseBeforeInput) 12,
        nextId := 24, lexicalEditor := some ed } := by
  cases canUseBeforeInput <;>
    (rw [attachTwice, addRootElementEvents, addRootElementEvents,
       registerEvents_spec, registerEvents_spec]
     simp [addDocumentSelectionChangeEvent, freshSurface, rootElementEventNames])

/-- With the back-reference defined, detach completes: the arbitration
map is cleaned and every removal callback runs (helper). -/
theorem removeRootElementEvents_ok (st : SurfaceState) (m : NestedMap)
    (e : EditorRef) (h : st.lexicalEditor = some e) :
    removeRootElementEvents st m =
      Except.ok ({ st with
                   lexicalEditor := none,
                   listeners := runRemoveHandles st.removeHandles st.listeners,
                   removeHandles := [] }, cleanActiveNestedEditorsMap e m) := by
  simp [removeRootElementEvents, cleanActiveNestedEditorsMapChecked, h]

/-- C4 counterexample: attaching twice before a detach DOES duplicate
listeners observably — a single `cut` event after a double attach
yields the `cut` command twice, not the single-attach stream. -/
theorem double_attach_duplicates_command_stream :
    commandStream (attachTwice true edR).listeners ["cut"] true ≠
      commandStream (attachOnce true edR).listeners ["cut"] true := by
  decide

/-- C4 (amended): attaching twice before a detach registers every
listener twice, so an event yields each command twice (the single
attach stream appended to itself); nevertheless a subsequent detach
(the back-reference being set by the attach flow) succeeds and fully
reverses both registrations: the listener and handle lists come back
empty, and afterwards no previously-registered handler fires on any
event sequence. -/
theorem detach_reverses_double_attach (canUseBeforeInput : Bool) (ed : EditorRef)
    (m : NestedMap) :
    commandStream (attachTwice canUseBeforeInput ed).listeners ["cut"] true =
      commandStream (attachOnce canUseBeforeInput ed).listeners ["cut"] true ++
        commandStream (attachOnce canUseBeforeInput ed).listeners ["cut"] true ∧
    removeRootElementEvents (attachTwice canUseBeforeInput ed) m =
      Except.ok ({ listeners := [], removeHandles := [], nextId := 24,
                   lexicalEditor := none }, cleanActiveNestedEditorsMap ed m) ∧
    (∀ events editable,
      commandStream ([] : List (String × Nat)) events editable = []) := by
  refine ⟨?_, ?_, ?_⟩
  · cases canUseBeforeInput <;>
      (rw [attachTwice_eq, attachOnce_eq]
       dsimp only
       decide)
  · cases canUseBeforeInput <;>
      (rw [attachTwice_eq, removeRootElementEvents_ok _ m ed rfl]
       exact congrArg (fun s => Except.ok (s, cleanActiveNestedEditorsMap ed m))
         (by dsimp only; decide))
  · intro events editable
    induction events with
    | nil => rfl
    | cons ev rest ih =>
      simpa [commandStream, handlerFirings] using ih

/-- C10: detach unconditionally hands the stored back-reference to the
arbitration cleanup; when `addDocumentSelectionChangeEvent` ran first
(back-reference defined) the error branch is unreachable and detach
completes the full removal, while without that precondition detach
throws on the `_parentEditor` dereference and removes none of the
registered handlers. -/
theorem removeRootElementEvents_backref_guard
    (st : SurfaceState) (m : NestedMap) (e : EditorRef) :
    (st.lexicalEditor = some e →
      removeRootElementEvents st m =
        Except.ok ({ st with
                     lexicalEditor := none,
                     listeners := runRemoveHandles st.removeHandles st.listeners,
                     removeHandles := [] }, cleanActiveNestedEditorsMap e m)) ∧
    (st.lexicalEditor = none →
      removeRootElementEvents st m = Except.error DetachError.undefinedEditorDeref ∧
      (applyRemoveRootElementEvents st m).1.listeners = st.listeners ∧
      (applyRemoveRootElementEvents st m).1.removeHandles = st.removeHandles) := by
  constructor
  · intro h
    simp [removeRootElementEvents, cleanActiveNestedEditorsMapChecked, h]
  · intro h
    refine ⟨?_, ?_, ?_⟩ <;>
      simp [removeRootElementEvents, applyRemoveRootElementEvents,
        cleanActiveNestedEditorsMapChecked, h]

/-- Witness for C10: a surface with the back-reference set detaches
cleanly; a fresh surface without it errors and keeps its (empty) lists
untouched. -/
theorem removeRootElementEvents_backref_guard_witness :
    (removeRootElementEvents surfaceWithBackref emptyNestedMap =
      Except.ok ({ surfaceWithBackref with
                   lexicalEditor := none,
                   listeners := runRemoveHandles surfaceWithBackref.removeHandles
                     surfaceWithBackref.listeners,
                   removeHandles := [] },
        cleanActiveNestedEditorsMap edR emptyNestedMap)) ∧
    (removeRootElementEvents freshSurface emptyNestedMap =
        Except.error DetachError.undefinedEditorDeref ∧
      (applyRemoveRootElementEvents freshSurface emptyNestedMap).1.listeners =
        freshSurface.listeners ∧
      (applyRemoveRootElementEvents freshSurface emptyNestedMap).1.removeHandles =
        freshSurface.removeHandles) := by
  refine ⟨?_, ?_⟩
  · exact (removeRootElementEvents_backref_guard
      surfaceWithBackref emptyNestedMap edR).1 rfl
  · exact (removeRootElementEvents_backref_guard
      freshSurface emptyNestedMap edR).2 rfl
